import Mathlib

/-!
Verification development for the openclaw-tinmem memory engine.

Shallow embedding of the TypeScript source:
  * `src/memory/scorer.ts`   — multi-stage scoring pipeline (`MemoryScorer`)
  * `src/memory/sql-safety.ts` — whitelist validators for UUID / scope / category
  * `src/memory/db.ts`       — LanceDB layer (`TinmemDB`), delete-then-insert with rollback
  * `src/memory/manager.ts`  — `MemoryManager` façade (update / store / export / reembed)
  * `src/memory/extractor.ts` — extraction gating and output validation
  * `src/prompts.ts`         — noise filter and XML-tag neutraliser

Numbers that are IEEE doubles in the source are modelled as rationals; the
transcendental `Math.exp` is passed in as an explicit function parameter.
Strings are modelled by Lean `String` (the source text is ASCII in every
relevant comparison).
-/

namespace Tinmem

/-! ### Scorer (src/memory/scorer.ts)

`MemoryScorer.score` maps each candidate to a final score.  The per-candidate
computation and the weight renormalisation are embedded below.  `MS_PER_DAY`
is `86400 * 1000`. -/

def msPerDay : ℚ := 86400 * 1000

/-- Scoring configuration, from `TinmemConfig['scoring']` (src/config.ts).
The zod schema bounds every weight/factor into `[0, 1]` and makes
`recencyBoostDays` / `timePenaltyDays` positive integers. -/
structure ScoringCfg where
  vectorWeight : ℚ
  bm25Weight : ℚ
  rerankerWeight : ℚ
  recencyBoostDays : ℚ
  recencyBoostFactor : ℚ
  importanceWeight : ℚ
  timePenaltyDays : ℚ
  timePenaltyFactor : ℚ
deriving DecidableEq

/-- The weight triple `(vectorWeight, bm25Weight, rerankerWeight)` actually used
by `score`, after the renormalisation performed when no rerank scores are
present (scorer.ts lines 33-43).  `rerankPresent` models
`rerankScores && rerankScores.size > 0`. -/
def weightsUsed (cfg : ScoringCfg) (rerankPresent : Bool) : ℚ × ℚ × ℚ :=
  if rerankPresent then
    (cfg.vectorWeight, cfg.bm25Weight, cfg.rerankerWeight)
  else
    let total := cfg.vectorWeight + cfg.bm25Weight
    (if 0 < total then cfg.vectorWeight / total else 1/2,
     if 0 < total then cfg.bm25Weight / total else 1/2,
     0)

/-- `MemoryScorer.computeRecencyBoost` (scorer.ts lines 84-93). -/
def computeRecencyBoost (cfg : ScoringCfg) (lastAccessedAt now : ℚ) : ℚ :=
  let daysSinceAccess := (now - lastAccessedAt) / msPerDay
  if cfg.recencyBoostDays ≤ daysSinceAccess then 0
  else cfg.recencyBoostFactor * (1 - daysSinceAccess / cfg.recencyBoostDays)

/-- `MemoryScorer.computeTimePenalty` (scorer.ts lines 95-105).  `ex` stands in
for `Math.exp`. -/
def computeTimePenalty (cfg : ScoringCfg) (ex : ℚ → ℚ) (createdAt now : ℚ) : ℚ :=
  let daysSinceCreation := (now - createdAt) / msPerDay
  if daysSinceCreation ≤ cfg.timePenaltyDays then 0
  else
    let excess := daysSinceCreation - cfg.timePenaltyDays
    min cfg.timePenaltyFactor (cfg.timePenaltyFactor * (1 - ex (-(excess / 90))))

/-- Per-candidate scorer input: the raw retrieval scores plus the memory
fields read by `score`. -/
structure ScoreInput where
  vectorScore : ℚ
  bm25Score : ℚ
  rerankScore : Option ℚ
  importance : ℚ
  createdAt : ℚ
  updatedAt : ℚ
  lastAccessedAt : Option ℚ
deriving DecidableEq

/-- The final score of one candidate, the body of the `map` inside
`MemoryScorer.score` (scorer.ts lines 46-79): base combination, recency boost,
importance boost, multiplicative time penalty, and the `Math.min(1.0, …)` cap. -/
def finalScore (cfg : ScoringCfg) (ex : ℚ → ℚ) (now : ℚ)
    (rerankPresent : Bool) (m : ScoreInput) : ℚ :=
  let w := weightsUsed cfg rerankPresent
  let baseScore := m.vectorScore * w.1 + m.bm25Score * w.2.1 +
    (match m.rerankScore with
     | some r => r * w.2.2
     | none => 0)
  let recencyBoost := computeRecencyBoost cfg (m.lastAccessedAt.getD m.updatedAt) now
  let importanceBoost := m.importance * cfg.importanceWeight
  let timePenalty := computeTimePenalty cfg ex m.createdAt now
  min 1 ((baseScore + recencyBoost + importanceBoost) * (1 - timePenalty))

/-- The default scoring configuration from src/config.ts
(0.4 / 0.3 / 0.3, 7 days, 0.15, 0.2, 90 days, 0.2). -/
def defaultScoringCfg : ScoringCfg :=
  { vectorWeight := 2/5, bm25Weight := 3/10, rerankerWeight := 3/10,
    recencyBoostDays := 7, recencyBoostFactor := 3/20,
    importanceWeight := 1/5, timePenaltyDays := 90, timePenaltyFactor := 1/5 }

/-! ### XML-tag neutraliser (src/prompts.ts lines 167-169)

`sanitizeForContext` implements `text.replace(/<(\/?)([a-zA-Z])/g, "< $1$2")`:
a global left-to-right scan replacing every `<`, optionally followed by `/`,
followed by an ASCII letter, with the same text carrying a space after the
`<`.  The recursion below mirrors that scan exactly: a match consumes the
`<`, the optional `/` and the letter; a failed match at a `<` resumes the
scan at the next character. -/

def isTagLetter (c : Char) : Bool :=
  ('a' ≤ c && c ≤ 'z') || ('A' ≤ c && c ≤ 'Z')

def sanitizeChars : List Char → List Char
  | [] => []
  | '<' :: r@('/' :: e :: rest) =>
    if isTagLetter e then '<' :: ' ' :: '/' :: e :: sanitizeChars rest
    else '<' :: sanitizeChars r
  | '<' :: r@(d :: rest) =>
    if isTagLetter d then '<' :: ' ' :: d :: sanitizeChars rest
    else '<' :: sanitizeChars r
  | c :: rest => c :: sanitizeChars rest

/-- String-level `sanitizeForContext`. -/
def sanitizeForContext (s : String) : String :=
  String.mk (sanitizeChars s.data)

/-! ### Scorer lemmas -/

theorem weightsUsed_nonneg (cfg : ScoringCfg) (rp : Bool)
    (hv : 0 ≤ cfg.vectorWeight) (hb : 0 ≤ cfg.bm25Weight) (hr : 0 ≤ cfg.rerankerWeight) :
    0 ≤ (weightsUsed cfg rp).1 ∧ 0 ≤ (weightsUsed cfg rp).2.1 ∧ 0 ≤ (weightsUsed cfg rp).2.2 := by
  cases rp with
  | true => exact ⟨hv, hb, hr⟩
  | false =>
    unfold weightsUsed
    by_cases h : 0 < cfg.vectorWeight + cfg.bm25Weight
    · simp only [if_pos h, Bool.false_eq_true, if_false]
      exact ⟨div_nonneg hv h.le, div_nonneg hb h.le, le_refl 0⟩
    · simp only [if_neg h, Bool.false_eq_true, if_false]
      norm_num

theorem computeRecencyBoost_nonneg (cfg : ScoringCfg) (la now : ℚ)
    (hbd : 0 < cfg.recencyBoostDays) (hbf : 0 ≤ cfg.recencyBoostFactor) :
    0 ≤ computeRecencyBoost cfg la now := by
  unfold computeRecencyBoost
  by_cases h : cfg.recencyBoostDays ≤ (now - la) / msPerDay
  · simp [h]
  · simp only [if_neg h]
    push_neg at h
    have : (now - la) / msPerDay / cfg.recencyBoostDays < 1 :=
      (div_lt_one hbd).2 h
    have h1 : 0 ≤ 1 - (now - la) / msPerDay / cfg.recencyBoostDays := by linarith
    exact mul_nonneg hbf h1

theorem computeTimePenalty_le_one (cfg : ScoringCfg) (ex : ℚ → ℚ) (c now : ℚ)
    (htf : cfg.timePenaltyFactor ≤ 1) :
    computeTimePenalty cfg ex c now ≤ 1 := by
  unfold computeTimePenalty
  by_cases h : (now - c) / msPerDay ≤ cfg.timePenaltyDays
  · simp [h]
  · simp only [if_neg h]
    exact le_trans (min_le_left _ _) htf

/-! ### Claim theorems: scorer -/

/-- C1, counterexample to the claim as stated: with the default scoring
configuration and an input whose `vectorScore` is `-10` (vector scores are
`1 − cosine distance` and may be negative), a fresh memory last accessed 100
days ago receives a final score of `-40/7`, strictly below `0`: the code caps
only above (`Math.min(1.0, …)`) and has no clamp at `0`. -/
theorem C1_counterexample :
    finalScore defaultScoringCfg (fun _ => 0) 8640000000 false
      { vectorScore := -10, bm25Score := 0, rerankScore := none, importance := 0,
        createdAt := 8640000000, updatedAt := 0, lastAccessedAt := none } < 0 := by
  norm_num [finalScore, weightsUsed, computeRecencyBoost, computeTimePenalty,
    msPerDay, defaultScoringCfg]

/-- C1 (amended): every final score is capped above at `1`; there is no lower
clamp, but whenever the per-candidate inputs (vector score, normalised bm25
score, rerank score if present, importance) are nonnegative and the
configured weights and factors satisfy the config-schema bounds, the final
score returned by `MemoryScorer.score` lies in the closed interval `[0, 1]`. -/
theorem C1_finalScore_unit_interval (cfg : ScoringCfg) (ex : ℚ → ℚ) (now : ℚ)
    (rp : Bool) (m : ScoreInput)
    (hv : 0 ≤ cfg.vectorWeight) (hb : 0 ≤ cfg.bm25Weight) (hr : 0 ≤ cfg.rerankerWeight)
    (hbd : 0 < cfg.recencyBoostDays) (hbf : 0 ≤ cfg.recencyBoostFactor)
    (hiw : 0 ≤ cfg.importanceWeight) (htf : cfg.timePenaltyFactor ≤ 1)
    (hvs : 0 ≤ m.vectorScore) (hbs : 0 ≤ m.bm25Score)
    (hrk : ∀ r, m.rerankScore = some r → 0 ≤ r) (him : 0 ≤ m.importance) :
    0 ≤ finalScore cfg ex now rp m ∧ finalScore cfg ex now rp m ≤ 1 := by
  obtain ⟨hw1, hw2, hw3⟩ := weightsUsed_nonneg cfg rp hv hb hr
  constructor
  · unfold finalScore
    refine le_min (by norm_num) (mul_nonneg ?_ ?_)
    · have hbase : 0 ≤ m.vectorScore * (weightsUsed cfg rp).1 +
          m.bm25Score * (weightsUsed cfg rp).2.1 +
          (match m.rerankScore with
           | some r => r * (weightsUsed cfg rp).2.2
           | none => 0) := by
        refine add_nonneg (add_nonneg (mul_nonneg hvs hw1) (mul_nonneg hbs hw2)) ?_
        cases hm : m.rerankScore with
        | none => simp
        | some r => simpa using mul_nonneg (hrk r hm) hw3
      have hrb := computeRecencyBoost_nonneg cfg (m.lastAccessedAt.getD m.updatedAt) now hbd hbf
      have hib : 0 ≤ m.importance * cfg.importanceWeight := mul_nonneg him hiw
      exact add_nonneg (add_nonneg hbase hrb) hib
    · have := computeTimePenalty_le_one cfg ex m.createdAt now htf
      linarith
  · exact min_le_left _ _

/-- C1 witness: evaluation of the amended bound at the default configuration
and a concrete nonnegative input. -/
theorem C1_witness :
    0 ≤ finalScore defaultScoringCfg (fun _ => 0) 0 false
        { vectorScore := 1/2, bm25Score := 1/2, rerankScore := none, importance := 1/2,
          createdAt := 0, updatedAt := 0, lastAccessedAt := none } ∧
    finalScore defaultScoringCfg (fun _ => 0) 0 false
        { vectorScore := 1/2, bm25Score := 1/2, rerankScore := none, importance := 1/2,
          createdAt := 0, updatedAt := 0, lastAccessedAt := none } ≤ 1 :=
  C1_finalScore_unit_interval defaultScoringCfg (fun _ => 0) 0 false
    { vectorScore := 1/2, bm25Score := 1/2, rerankScore := none, importance := 1/2,
      createdAt := 0, updatedAt := 0, lastAccessedAt := none }
    (by norm_num [defaultScoringCfg]) (by norm_num [defaultScoringCfg])
    (by norm_num [defaultScoringCfg]) (by norm_num [defaultScoringCfg])
    (by norm_num [defaultScoringCfg]) (by norm_num [defaultScoringCfg])
    (by norm_num [defaultScoringCfg]) (by norm_num) (by norm_num)
    (fun r h => Option.noConfusion h) (by norm_num)

/-- C5, counterexample to the claim as stated: with the default weights
`w_v = 0.4`, `w_b = 0.3` and no rerank scores, the renormalised vector and
bm25 weights sum to `1`, not to the prior value `w_v + w_b = 0.7`. -/
theorem C5_counterexample :
    (weightsUsed defaultScoringCfg false).1 + (weightsUsed defaultScoringCfg false).2.1 ≠
      defaultScoringCfg.vectorWeight + defaultScoringCfg.bm25Weight := by
  norm_num [weightsUsed, defaultScoringCfg]

/-- C5 (amended): when no rerank scores are present the reranker weight used
is `0`, and the vector and bm25 weights are renormalised proportionally so
that they sum to `1` (each divided by the prior `w_v + w_b`), falling back to
`(0.5, 0.5)` exactly when `w_v + w_b = 0`, which for the schema-nonnegative
weights happens only when both were zero. -/
theorem C5_weights_renormalised (cfg : ScoringCfg)
    (hv : 0 ≤ cfg.vectorWeight) (hb : 0 ≤ cfg.bm25Weight) :
    (weightsUsed cfg false).2.2 = 0 ∧
    (0 < cfg.vectorWeight + cfg.bm25Weight →
      (weightsUsed cfg false).1 = cfg.vectorWeight / (cfg.vectorWeight + cfg.bm25Weight) ∧
      (weightsUsed cfg false).2.1 = cfg.bm25Weight / (cfg.vectorWeight + cfg.bm25Weight) ∧
      (weightsUsed cfg false).1 + (weightsUsed cfg false).2.1 = 1) ∧
    (¬ 0 < cfg.vectorWeight + cfg.bm25Weight →
      cfg.vectorWeight = 0 ∧ cfg.bm25Weight = 0 ∧
      (weightsUsed cfg false).1 = 1/2 ∧ (weightsUsed cfg false).2.1 = 1/2) := by
  have hw : weightsUsed cfg false =
      (if 0 < cfg.vectorWeight + cfg.bm25Weight then
        cfg.vectorWeight / (cfg.vectorWeight + cfg.bm25Weight) else 1/2,
       if 0 < cfg.vectorWeight + cfg.bm25Weight then
        cfg.bm25Weight / (cfg.vectorWeight + cfg.bm25Weight) else 1/2,
       0) := rfl
  rw [hw]
  refine ⟨rfl, fun h => ?_, fun h => ?_⟩
  · rw [if_pos h, if_pos h]
    refine ⟨rfl, rfl, ?_⟩
    field_simp
  · have hv0 : cfg.vectorWeight = 0 := by
      rcases lt_or_eq_of_le hv with h1 | h1
      · exact absurd (by linarith : 0 < cfg.vectorWeight + cfg.bm25Weight) h
      · exact h1.symm
    have hb0 : cfg.bm25Weight = 0 := by
      rcases lt_or_eq_of_le hb with h1 | h1
      · exact absurd (by linarith : 0 < cfg.vectorWeight + cfg.bm25Weight) h
      · exact h1.symm
    rw [if_neg h, if_neg h]
    exact ⟨hv0, hb0, rfl, rfl⟩

/-- C5 witness: evaluation of the renormalisation at the default weights. -/
theorem C5_witness :
    (weightsUsed defaultScoringCfg false).2.2 = 0 ∧
    (0 < defaultScoringCfg.vectorWeight + defaultScoringCfg.bm25Weight →
      (weightsUsed defaultScoringCfg false).1 =
        defaultScoringCfg.vectorWeight /
          (defaultScoringCfg.vectorWeight + defaultScoringCfg.bm25Weight) ∧
      (weightsUsed defaultScoringCfg false).2.1 =
        defaultScoringCfg.bm25Weight /
          (defaultScoringCfg.vectorWeight + defaultScoringCfg.bm25Weight) ∧
      (weightsUsed defaultScoringCfg false).1 + (weightsUsed defaultScoringCfg false).2.1 = 1) ∧
    (¬ 0 < defaultScoringCfg.vectorWeight + defaultScoringCfg.bm25Weight →
      defaultScoringCfg.vectorWeight = 0 ∧ defaultScoringCfg.bm25Weight = 0 ∧
      (weightsUsed defaultScoringCfg false).1 = 1/2 ∧
      (weightsUsed defaultScoringCfg false).2.1 = 1/2) :=
  C5_weights_renormalised defaultScoringCfg
    (by norm_num [defaultScoringCfg]) (by norm_num [defaultScoringCfg])

/-! ### Claim theorem: sanitiser idempotence -/

theorem sanitizeChars_cons_head (c : Char) (l : List Char) :
    ∃ ys, sanitizeChars (c :: l) = c :: ys := by
  by_cases hc : c = '<'
  · subst hc
    rcases l with _ | ⟨d, _ | ⟨e, rest⟩⟩
    · exact ⟨[], by simp [sanitizeChars]⟩
    · by_cases hd : d = '/'
      · subst hd; exact ⟨sanitizeChars ['/'], by simp +decide [sanitizeChars]⟩
      · by_cases h : isTagLetter d = true <;> simp [sanitizeChars, h, hd]
    · by_cases hd : d = '/'
      · subst hd
        by_cases h : isTagLetter e = true <;> simp [sanitizeChars, h]
      · by_cases h : isTagLetter d = true <;> simp [sanitizeChars, h, hd]
  · rcases l with _ | ⟨d, rest⟩
    · exact ⟨[], by simp [sanitizeChars, hc]⟩
    · exact ⟨sanitizeChars (d :: rest), by simp [sanitizeChars, hc]⟩

theorem sanitizeChars_idem (l : List Char) :
    sanitizeChars (sanitizeChars l) = sanitizeChars l := by
  induction l using sanitizeChars.induct with
  | case1 => simp [sanitizeChars]
  | case2 e rest h ih =>
    have he : e ≠ '<' := by rintro rfl; simp [isTagLetter] at h
    simp +decide [sanitizeChars, h, he, ih]
  | case3 e rest h ih =>
    obtain ⟨ys, hys⟩ := sanitizeChars_cons_head e rest
    have h1 : sanitizeChars ('/' :: e :: rest) = '/' :: e :: ys := by
      simp +decide [sanitizeChars, hys]
    have h0 : sanitizeChars ('<' :: '/' :: e :: rest) =
        '<' :: sanitizeChars ('/' :: e :: rest) := by
      simp [sanitizeChars, h]
    rw [h0, h1]
    have h2 : sanitizeChars ('<' :: '/' :: e :: ys) =
        '<' :: sanitizeChars ('/' :: e :: ys) := by
      simp [sanitizeChars, h]
    rw [h2, ← h1, ih]
  | case4 d rest hne h ih =>
    have hd : d ≠ '<' := by rintro rfl; simp [isTagLetter] at h
    simp +decide [sanitizeChars, h, hd, ih]
  | case5 d rest hne h ih =>
    by_cases hd : d = '/'
    · subst hd
      rcases rest with _ | ⟨e, rest1⟩
      · simp +decide [sanitizeChars]
      · exact (hne e rest1 rfl rfl).elim
    · obtain ⟨ys, hys⟩ := sanitizeChars_cons_head d rest
      have h0 : sanitizeChars ('<' :: d :: rest) = '<' :: sanitizeChars (d :: rest) := by
        simp [sanitizeChars, h, hd]
      have h2 : sanitizeChars ('<' :: d :: ys) = '<' :: sanitizeChars (d :: ys) := by
        simp [sanitizeChars, h, hd]
      rw [h0, hys, h2, ← hys, ih]
  | case6 c rest h1 h2 ih =>
    by_cases hc : c = '<'
    · subst hc
      rcases rest with _ | ⟨d, rest1⟩
      · simp [sanitizeChars]
      · exact (h2 d rest1 rfl rfl).elim
    · simp [sanitizeChars, hc, ih]

/-- C9: the XML-tag neutraliser used by context assembly is idempotent:
sanitising an already-sanitised string changes nothing, because every
replaced `<` is followed by a space in the output and therefore matches no
further occurrence of the tag pattern. -/
theorem C9_sanitizeForContext_idempotent (s : String) :
    sanitizeForContext (sanitizeForContext s) = sanitizeForContext s :=
  congrArg String.mk (sanitizeChars_idem s.data)

/-! ### Whitelist validators (src/memory/sql-safety.ts)

`UUID_RE` is `^[0-9a-f]{8}-[0-9a-f]{4}-[0-9a-f]{4}-[0-9a-f]{4}-[0-9a-f]{12}$`
with the case-insensitive flag: 36 characters, hyphens at positions 8, 13,
18, 23, hex digits everywhere else.  `SCOPE_RE` is
`^(global|agent:[a-zA-Z0-9_.\-]+|project:…|user:…|custom:…)$`.
`VALID_CATEGORIES` is the closed six-element set. -/

def isHexDigit (c : Char) : Bool :=
  c.isDigit || ('a' ≤ c && c ≤ 'f') || ('A' ≤ c && c ≤ 'F')

def uuidValid (s : String) : Bool :=
  let cs := s.data
  cs.length == 36 &&
  (List.range 36).all fun i =>
    if i == 8 || i == 13 || i == 18 || i == 23 then cs.getD i ' ' == '-'
    else isHexDigit (cs.getD i ' ')

def scopeNameChar (c : Char) : Bool :=
  c.isAlphanum || c == '_' || c == '.' || c == '-'

def listStartsWith : List Char → List Char → Bool
  | [], _ => true
  | _ :: _, [] => false
  | p :: ps, c :: cs => p == c && listStartsWith ps cs

/-- `prefix:name` scope form: the prefix, then one or more name characters. -/
def scopeTagged (pre : String) (s : String) : Bool :=
  listStartsWith pre.data s.data &&
  !(s.data.drop pre.data.length).isEmpty &&
  (s.data.drop pre.data.length).all scopeNameChar

def scopeValid (s : String) : Bool :=
  s == "global" ||
  (["agent:", "project:", "user:", "custom:"].any fun p => scopeTagged p s)

def VALID_CATEGORIES : List String :=
  ["profile", "preferences", "entities", "events", "cases", "patterns"]

def categoryValid (s : String) : Bool :=
  VALID_CATEGORIES.contains s

/-- The SQL-injection probe from the spec's end-to-end scenario 5, written
without a quote literal: a single-quote character followed by
`; DROP TABLE memories; --`. -/
def injectionId : String :=
  String.mk (Char.ofNat 39 :: ("; DROP TABLE memories; --").data)

/-! ### Store model (src/memory/db.ts, the sql-safety-hardened `TinmemDB`)

The LanceDB table is modelled as a list of rows in insertion order;
`table.add` appends, `table.delete "id = …"` removes every row with that id,
and `getById`'s `limit(1)` query returns the first matching row.  Every
operation reports the result (or thrown error), the post-state of the table,
and the trace of calls issued to the engine; `assertUuid`/`assertScope`/
`assertCategory` failures throw before anything reaches the engine, so the
trace in that case is empty.  Insert failure for the rollback discipline is
injected through the `addFails` flag. -/

/-- A memory row as the code passes it around (metadata omitted: no claim
reads it).  `vector` is `Option` because `Memory.vector` is optional in
types.ts ("not returned in queries by default"): `fromRow` never sets it, and
`toRow` writes whatever is there, so a row handed to `table.add` can carry
`vector: undefined` — modelled as `none`. -/
structure MemRow where
  id : String
  headline : String
  summary : String
  content : String
  category : String
  scope : String
  importance : ℚ
  createdAt : ℕ
  updatedAt : ℕ
  accessCount : ℕ
  lastAccessedAt : ℕ
  tags : List String
  vector : Option (List ℚ)
deriving DecidableEq

/-- `TinmemDB.fromRow` (db.ts lines 951-973) as a projection: it copies every
scalar column but never the `vector` column, so everything read back through
`getById`/`list` is vector-less. -/
def projMemory (r : MemRow) : MemRow :=
  { r with vector := none }

abbrev Table := List MemRow

inductive DbErr where
  | invalidArgument (arg : String)
  | insertFailure
deriving DecidableEq

inductive EngineCall where
  | query (what : String)
  | del (what : String)
  | add (rows : List MemRow)
deriving DecidableEq

/-- Result of a store operation: thrown error or value, post-state, trace. -/
structure DbOut (α : Type) where
  result : Except DbErr α
  table : Table
  calls : List EngineCall

/-- Total number of rows, the `total` field of `getStats()`. -/
def statsTotal (t : Table) : ℕ := t.length

/-- `TinmemDB.getById` (db.ts lines 666-676): `assertUuid(id)` then a
`where id = '…'` query with `limit(1)`; the result goes through `fromRow`,
which drops the vector column. -/
def dbGetById (t : Table) (id : String) : DbOut (Option MemRow) :=
  if uuidValid id then
    ⟨Except.ok (((t.filter fun r => r.id == id).head?).map projMemory), t,
      [EngineCall.query id]⟩
  else
    ⟨Except.error (DbErr.invalidArgument id), t, []⟩

/-- The partial update object accepted by `TinmemDB.update`. -/
structure UpdateDelta where
  headline : Option String := none
  summary : Option String := none
  content : Option String := none
  importance : Option ℚ := none
  tags : Option (List String) := none
  vector : Option (List ℚ) := none
deriving DecidableEq

/-- The merged record `{...existing, ...updates, vector: updates.vector ??
existing.vector ?? [], updatedAt: Date.now()}` built inside `TinmemDB.update`.
`existing` is `getById`'s vector-less projection, so without a vector delta
the merged row is persisted with `vector: []`. -/
def applyDelta (existing : MemRow) (u : UpdateDelta) (now : ℕ) : MemRow :=
  { existing with
    headline := u.headline.getD existing.headline
    summary := u.summary.getD existing.summary
    content := u.content.getD existing.content
    importance := u.importance.getD existing.importance
    tags := u.tags.getD existing.tags
    vector := some
      (match u.vector with
       | some v => v
       | none =>
         match existing.vector with
         | some v => v
         | none => [])
    updatedAt := now }

/-- `TinmemDB.update` (db.ts lines 600-629): assert, read through `getById`
(a vector-less projection), materialise the rollback image `toRow(existing)`
— whose vector is therefore `undefined` — delete, then add; on add failure
re-add the rollback image and rethrow. -/
def dbUpdate (t : Table) (id : String) (u : UpdateDelta) (now : ℕ)
    (addFails : Bool) : DbOut (Option MemRow) :=
  if uuidValid id then
    match (t.filter fun r => r.id == id).head? with
    | none => ⟨Except.ok none, t, [EngineCall.query id]⟩
    | some found =>
      let existing := projMemory found
      let updated := applyDelta existing u now
      let afterDelete := t.filter fun r => !(r.id == id)
      if addFails then
        ⟨Except.error DbErr.insertFailure, afterDelete ++ [existing],
          [EngineCall.query id, EngineCall.del id,
           EngineCall.add [updated], EngineCall.add [existing]]⟩
      else
        ⟨Except.ok (some updated), afterDelete ++ [updated],
          [EngineCall.query id, EngineCall.del id, EngineCall.add [updated]]⟩
  else
    ⟨Except.error (DbErr.invalidArgument id), t, []⟩

/-- `TinmemDB.incrementAccessCount` (db.ts lines 678-702): same rollback
discipline around the access-count bump.  `existing` is again the vector-less
projection, so the bumped row is persisted with
`vector: (existing…).vector ?? []` = `[]` and the rollback image carries
`vector: undefined`. -/
def dbIncrementAccessCount (t : Table) (id : String) (now : ℕ)
    (addFails : Bool) : DbOut Unit :=
  if uuidValid id then
    match (t.filter fun r => r.id == id).head? with
    | none => ⟨Except.ok (), t, [EngineCall.query id]⟩
    | some found =>
      let existing := projMemory found
      let updated := { existing with
        vector := some (existing.vector.getD [])
        accessCount := existing.accessCount + 1
        lastAccessedAt := now }
      let afterDelete := t.filter fun r => !(r.id == id)
      if addFails then
        ⟨Except.error DbErr.insertFailure, afterDelete ++ [existing],
          [EngineCall.query id, EngineCall.del id,
           EngineCall.add [updated], EngineCall.add [existing]]⟩
      else
        ⟨Except.ok (), afterDelete ++ [updated],
          [EngineCall.query id, EngineCall.del id, EngineCall.add [updated]]⟩
  else
    ⟨Except.error (DbErr.invalidArgument id), t, []⟩

/-- `TinmemDB.delete` (db.ts lines 631-641). -/
def dbDelete (t : Table) (id : String) : DbOut Bool :=
  if uuidValid id then
    match (t.filter fun r => r.id == id).head? with
    | none => ⟨Except.ok false, t, [EngineCall.query id]⟩
    | some _ =>
      ⟨Except.ok true, t.filter fun r => !(r.id == id),
        [EngineCall.query id, EngineCall.del id]⟩
  else
    ⟨Except.error (DbErr.invalidArgument id), t, []⟩

/-- `TinmemDB.deleteMany` (db.ts lines 643-653): the empty list returns `0`
before any validation or engine call; otherwise every id is asserted, a
single `id IN (…)` delete is issued, and the return value is `ids.length`. -/
def dbDeleteMany (t : Table) (ids : List String) : DbOut ℕ :=
  if ids.isEmpty then ⟨Except.ok 0, t, []⟩
  else if ids.all uuidValid then
    ⟨Except.ok ids.length, t.filter (fun r => !(ids.contains r.id)),
      [EngineCall.del (String.intercalate ", " ids)]⟩
  else
    ⟨Except.error (DbErr.invalidArgument (String.intercalate ", " ids)), t, []⟩

/-- `TinmemDB.deleteByScope` (db.ts lines 655-664). -/
def dbDeleteByScope (t : Table) (scope : String) : DbOut ℕ :=
  if scopeValid scope then
    ⟨Except.ok (t.filter fun r => r.scope == scope).length,
      t.filter (fun r => !(r.scope == scope)),
      [EngineCall.query scope, EngineCall.del scope]⟩
  else
    ⟨Except.error (DbErr.invalidArgument scope), t, []⟩

/-! ### List / export (db.ts lines 808-862 and 924-928, manager.ts 274-337) -/

inductive OrderBy where
  | createdAt | updatedAt | importance | accessCount
deriving DecidableEq

inductive OrderDir where
  | asc | desc
deriving DecidableEq

def sortKey (ob : OrderBy) (m : MemRow) : ℚ :=
  match ob with
  | .createdAt => m.createdAt
  | .updatedAt => m.updatedAt
  | .importance => m.importance
  | .accessCount => m.accessCount

/-- The numeric comparator `av - bv` / `bv - av` passed to `Array.sort`. -/
def listLe (ob : OrderBy) (dir : OrderDir) (a b : MemRow) : Bool :=
  match dir with
  | .asc => decide (sortKey ob a ≤ sortKey ob b)
  | .desc => decide (sortKey ob b ≤ sortKey ob a)

/-- The conjunction of the scope filter and the category filter of `list`. -/
def listPred (scope : Option String) (categories : List String) (r : MemRow) : Bool :=
  (match scope with
   | some s => r.scope == s
   | none => true) &&
  (categories.isEmpty || categories.contains r.category)

/-- `TinmemDB.list` (db.ts lines 808-862): validate scope and categories,
issue one filtered query truncated by the engine at `limit + offset`, sort
in memory, slice off the offset when it is truthy, and keep `limit` rows. -/
def dbList (t : Table) (scope : Option String) (categories : List String)
    (limit offset : ℕ) (ob : OrderBy) (dir : OrderDir) : DbOut (List MemRow) :=
  let scopeBad : Option String :=
    match scope with
    | some s => if scopeValid s then none else some s
    | none => none
  match scopeBad with
  | some s => ⟨Except.error (DbErr.invalidArgument s), t, []⟩
  | none =>
    match categories.find? (fun c => !(categoryValid c)) with
    | some c => ⟨Except.error (DbErr.invalidArgument c), t, []⟩
    | none =>
      let fetched := (t.filter (listPred scope categories)).take (limit + offset)
      let sorted := fetched.mergeSort (listLe ob dir)
      let paged := if offset == 0 then sorted else sorted.drop offset
      ⟨Except.ok (paged.take limit), t, [EngineCall.query "list"]⟩

/-- `TinmemDB.getAllForExport` (db.ts lines 924-928): `list` with the default
ordering and a fixed `limit` of `100000`. -/
def getAllForExport (t : Table) (scope : Option String) : DbOut (List MemRow) :=
  dbList t scope [] 100000 0 OrderBy.createdAt OrderDir.desc

/-- The export payload assembled by `MemoryManager.export`
(manager.ts lines 274-286); stats reduced to the row total. -/
structure ExportData where
  version : String
  exportedAt : ℕ
  memories : List MemRow
  total : ℕ

/-- `MemoryManager.export`. -/
def managerExport (t : Table) (scope : Option String) (now : ℕ) :
    Except DbErr ExportData :=
  match (getAllForExport t scope).result with
  | Except.ok mems =>
    Except.ok { version := "1.0.0", exportedAt := now, memories := mems,
                total := statsTotal t }
  | Except.error e => Except.error e

/-- Body of the `reembed` loop of `MemoryManager.reembed` (manager.ts lines
319-337): one `update` with only a vector delta, counting the memory on
success and swallowing the error otherwise. -/
def reembedStep (embed : String → List ℚ) (now : ℕ) (acc : ℕ × Table)
    (m : MemRow) : ℕ × Table :=
  let out := dbUpdate acc.2 m.id
    { vector := some (embed (m.headline ++ "\n" ++ m.summary ++ "\n" ++ m.content)) }
    now false
  match out.result with
  | Except.ok _ => (acc.1 + 1, out.table)
  | Except.error _ => (acc.1, acc.2)

/-- `MemoryManager.reembed`: enumerate via `getAllForExport`, fold
`reembedStep` over the rows.  Returns the count and the final table. -/
def managerReembed (t : Table) (embed : String → List ℚ) (scope : Option String)
    (now : ℕ) : ℕ × Table :=
  match (getAllForExport t scope).result with
  | Except.error _ => (0, t)
  | Except.ok mems => mems.foldl (reembedStep embed now) (0, t)

deriving instance DecidableEq for Except

/-- A syntactically valid UUID used for concrete instantiations. -/
def sampleUuid : String := "00000000-0000-0000-0000-000000000000"

/-- A concrete row used for concrete instantiations. -/
def sampleRow : MemRow :=
  { id := sampleUuid, headline := "h", summary := "s", content := "c",
    category := "profile", scope := "global", importance := 1,
    createdAt := 0, updatedAt := 0, accessCount := 0, lastAccessedAt := 0,
    tags := [], vector := some [0] }

/-! ### Claim theorems: store validation, rollback, deleteMany -/

/-- C2: every Store operation taking an id, scope, or category argument
validates it against the whitelist grammar first and, on failure, throws an
`InvalidArgument`-kind error with an empty engine-call trace and an unchanged
table — in particular an unchanged `getStats().total`.  Instantiating `id`
with `'; DROP TABLE memories; --` (see the witness) gives the spec's
injection scenario. -/
theorem C2_validation_aborts_before_engine (t : Table) (id scope cat : String)
    (u : UpdateDelta) (now : ℕ) (fails : Bool) (limit offset : ℕ)
    (ob : OrderBy) (dir : OrderDir)
    (hid : uuidValid id = false) (hs : scopeValid scope = false)
    (hc : categoryValid cat = false) :
    dbGetById t id = ⟨Except.error (DbErr.invalidArgument id), t, []⟩ ∧
    dbUpdate t id u now fails = ⟨Except.error (DbErr.invalidArgument id), t, []⟩ ∧
    dbDelete t id = ⟨Except.error (DbErr.invalidArgument id), t, []⟩ ∧
    dbIncrementAccessCount t id now fails =
      ⟨Except.error (DbErr.invalidArgument id), t, []⟩ ∧
    dbDeleteMany t [id] =
      ⟨Except.error (DbErr.invalidArgument (String.intercalate ", " [id])), t, []⟩ ∧
    dbDeleteByScope t scope = ⟨Except.error (DbErr.invalidArgument scope), t, []⟩ ∧
    dbList t none [cat] limit offset ob dir =
      ⟨Except.error (DbErr.invalidArgument cat), t, []⟩ ∧
    statsTotal (dbGetById t id).table = statsTotal t := by
  refine ⟨?_, ?_, ?_, ?_, ?_, ?_, ?_, ?_⟩ <;>
    simp [dbGetById, dbUpdate, dbDelete, dbIncrementAccessCount, dbDeleteMany,
      dbDeleteByScope, dbList, hid, hs, hc, statsTotal]

/-- C2 witness: the SQL-injection probe id, a malformed scope, and the
category `memories` are all rejected on the empty table. -/
theorem C2_witness :
    uuidValid injectionId = false ∧ scopeValid "agent Smith" = false ∧
    categoryValid "memories" = false ∧
    (dbGetById [] injectionId =
        ⟨Except.error (DbErr.invalidArgument injectionId), [], []⟩ ∧
      dbUpdate [] injectionId {} 0 false =
        ⟨Except.error (DbErr.invalidArgument injectionId), [], []⟩ ∧
      dbDelete [] injectionId =
        ⟨Except.error (DbErr.invalidArgument injectionId), [], []⟩ ∧
      dbIncrementAccessCount [] injectionId 0 false =
        ⟨Except.error (DbErr.invalidArgument injectionId), [], []⟩ ∧
      dbDeleteMany [] [injectionId] =
        ⟨Except.error (DbErr.invalidArgument
          (String.intercalate ", " [injectionId])), [], []⟩ ∧
      dbDeleteByScope [] "agent Smith" =
        ⟨Except.error (DbErr.invalidArgument "agent Smith"), [], []⟩ ∧
      dbList [] none ["memories"] 10 0 OrderBy.createdAt OrderDir.desc =
        ⟨Except.error (DbErr.invalidArgument "memories"), [], []⟩ ∧
      statsTotal (dbGetById [] injectionId).table = statsTotal []) :=
  ⟨by decide, by decide, by decide,
    C2_validation_aborts_before_engine [] injectionId "agent Smith" "memories"
      {} 0 false 10 0 OrderBy.createdAt OrderDir.desc
      (by decide) (by decide) (by decide)⟩

/-- C3, counterexample to the claim as stated: failure injection on a
one-row table whose row carries vector `[0]`.  Both operations surface the
insert failure, but the re-inserted rollback image is `toRow` of `getById`'s
`fromRow` projection, which drops the vector column, so the restored row has
`vector: undefined` and the table is not the pre-update table: the row's
embedding is lost. -/
theorem C3_counterexample :
    (dbUpdate [sampleRow] sampleUuid {} 5 true).result =
      Except.error DbErr.insertFailure ∧
    (dbUpdate [sampleRow] sampleUuid {} 5 true).table =
      [{ sampleRow with vector := none }] ∧
    (dbUpdate [sampleRow] sampleUuid {} 5 true).table ≠ [sampleRow] ∧
    (dbIncrementAccessCount [sampleRow] sampleUuid 5 true).result =
      Except.error DbErr.insertFailure ∧
    (dbIncrementAccessCount [sampleRow] sampleUuid 5 true).table ≠ [sampleRow] := by
  refine ⟨by decide, by decide, by decide, by decide, by decide⟩

/-- C3 (amended): on `update` and `incrementAccessCount` over an existing
row, when the insert after the delete fails, the materialised rollback image
is re-inserted and the original error is surfaced — but the image is the
vector-less read projection of the original row, so the restored row
preserves every field except `vector`, which is lost; the table is not fully
restored to its pre-update contents. -/
theorem C3_rollback_reinserts_projected_image (t : Table) (id : String)
    (u : UpdateDelta) (now : ℕ) (existing : MemRow)
    (hvalid : uuidValid id = true)
    (hex : (t.filter fun r => r.id == id).head? = some existing) :
    ((dbUpdate t id u now true).result = Except.error DbErr.insertFailure ∧
      (dbUpdate t id u now true).table =
        (t.filter fun r => !(r.id == id)) ++ [{ existing with vector := none }]) ∧
    ((dbIncrementAccessCount t id now true).result =
        Except.error DbErr.insertFailure ∧
      (dbIncrementAccessCount t id now true).table =
        (t.filter fun r => !(r.id == id)) ++ [{ existing with vector := none }]) := by
  refine ⟨⟨?_, ?_⟩, ?_, ?_⟩ <;>
    simp [dbUpdate, dbIncrementAccessCount, hvalid, hex, projMemory]

/-- C3 witness: failure injection on the one-row table re-inserts the
vector-less image of the sample row and surfaces the insert failure. -/
theorem C3_witness :
    uuidValid sampleUuid = true ∧
    (([sampleRow] : Table).filter fun r => r.id == sampleUuid).head? =
      some sampleRow ∧
    (((dbUpdate [sampleRow] sampleUuid {} 5 true).result =
        Except.error DbErr.insertFailure ∧
      (dbUpdate [sampleRow] sampleUuid {} 5 true).table =
        (([sampleRow] : Table).filter fun r => !(r.id == sampleUuid)) ++
          [{ sampleRow with vector := none }]) ∧
     ((dbIncrementAccessCount [sampleRow] sampleUuid 5 true).result =
        Except.error DbErr.insertFailure ∧
      (dbIncrementAccessCount [sampleRow] sampleUuid 5 true).table =
        (([sampleRow] : Table).filter fun r => !(r.id == sampleUuid)) ++
          [{ sampleRow with vector := none }])) :=
  ⟨by decide, by decide,
    C3_rollback_reinserts_projected_image [sampleRow] sampleUuid {} 5 sampleRow
      (by decide) (by decide)⟩

/-- C4, counterexample to the claim as stated: on the empty table,
`deleteMany` with one syntactically valid id returns `1` although zero rows
were removed (`getStats().total` is `0` both before and after), so the return
value is not the count of rows actually removed. -/
theorem C4_counterexample :
    (dbDeleteMany ([] : Table) [sampleUuid]).result = Except.ok 1 ∧
    statsTotal ([] : Table) = 0 ∧
    statsTotal (dbDeleteMany ([] : Table) [sampleUuid]).table = 0 ∧
    (1 : ℕ) ≠ 0 := by
  refine ⟨by decide, by decide, by decide, by decide⟩

/-- C4 (amended): for a non-empty list of valid ids, `deleteMany` issues one
`id IN (…)` delete and returns the length of the argument list (which may
exceed the number of rows actually present); `deleteMany([])` returns `0`
and performs no engine call. -/
theorem C4_deleteMany_returns_input_length (t : Table) (ids : List String)
    (hne : ids ≠ []) (hall : ids.all uuidValid = true) :
    (dbDeleteMany t ids).result = Except.ok ids.length ∧
    (dbDeleteMany t ids).table = t.filter (fun r => !(ids.contains r.id)) ∧
    dbDeleteMany t [] = ⟨Except.ok 0, t, []⟩ := by
  have hni : ids.isEmpty = false := by
    cases ids with
    | nil => exact absurd rfl hne
    | cons a l => rfl
  refine ⟨?_, ?_, rfl⟩ <;> simp [dbDeleteMany, hni, hall]

/-! ### Claim theorems: export / reembed cap -/

theorem getAllForExport_result (t : Table) (scope : Option String)
    (hscope : ∀ s, scope = some s → scopeValid s = true) :
    (getAllForExport t scope).result =
      Except.ok ((((t.filter (listPred scope [])).take 100000).mergeSort
        (listLe OrderBy.createdAt OrderDir.desc)).take 100000) := by
  unfold getAllForExport dbList
  cases scope with
  | none => simp
  | some s => simp [hscope s rfl]

theorem reembed_foldl_count_le (embed : String → List ℚ) (now : ℕ)
    (mems : List MemRow) :
    ∀ acc : ℕ × Table,
      (mems.foldl (reembedStep embed now) acc).1 ≤ acc.1 + mems.length := by
  have hstep : ∀ (a : ℕ × Table) (m : MemRow),
      (reembedStep embed now a m).1 ≤ a.1 + 1 := by
    intro a m
    simp only [reembedStep]
    split <;> simp
  induction mems with
  | nil => intro acc; simp
  | cons m ms ih =>
    intro acc
    have h1 := ih (reembedStep embed now acc m)
    have h2 := hstep acc m
    simp only [List.foldl_cons, List.length_cons]
    omega

/-- C10 (implicit claim): `export(scope?)` and `reembed(scope?)` enumerate
rows through `getAllForExport`, which lists with a fixed limit of `100000`;
on a store holding more rows than that in the requested scope, the export
payload contains exactly `100000` memories (the excess silently omitted, no
error reported) and at most `100000` memories are re-embedded. -/
theorem C10_export_reembed_capped (t : Table) (scope : Option String)
    (embed : String → List ℚ) (now : ℕ)
    (hscope : ∀ s, scope = some s → scopeValid s = true)
    (hbig : 100000 < (t.filter (listPred scope [])).length) :
    (∃ p, managerExport t scope now = Except.ok p ∧
      p.memories.length = 100000) ∧
    (managerReembed t embed scope now).1 ≤ 100000 := by
  have hres := getAllForExport_result t scope hscope
  set L := (((t.filter (listPred scope [])).take 100000).mergeSort
      (listLe OrderBy.createdAt OrderDir.desc)).take 100000 with hL
  have hlen : L.length = 100000 := by
    rw [hL]
    simp only [List.length_take, List.length_mergeSort]
    omega
  constructor
  · refine ⟨⟨"1.0.0", now, L, statsTotal t⟩, ?_, hlen⟩
    unfold managerExport
    rw [hres]
  · have hb := reembed_foldl_count_le embed now L (0, t)
    have hgoal : managerReembed t embed scope now =
        L.foldl (reembedStep embed now) (0, t) := by
      unfold managerReembed
      rw [hres]
    rw [hgoal]
    omega

/-- C10 witness: a table of `100001` identical rows with no scope filter. -/
theorem C10_witness :
    (∀ s, (none : Option String) = some s → scopeValid s = true) ∧
    100000 < ((List.replicate 100001 sampleRow).filter
      (listPred none [])).length ∧
    ((∃ p, managerExport (List.replicate 100001 sampleRow) none 0 = Except.ok p ∧
        p.memories.length = 100000) ∧
      (managerReembed (List.replicate 100001 sampleRow) (fun _ => [0]) none 0).1
        ≤ 100000) :=
  have hall : (List.replicate 100001 sampleRow).filter (listPred none []) =
      List.replicate 100001 sampleRow :=
    List.filter_eq_self.2 (fun a _ => rfl)
  ⟨(fun s h => nomatch h),
    by rw [hall, List.length_replicate]; norm_num,
    C10_export_reembed_capped (List.replicate 100001 sampleRow) none
      (fun _ => [0]) 0 (fun s h => nomatch h)
      (by rw [hall, List.length_replicate]; norm_num)⟩

/-! ### Manager update / store / import (src/memory/manager.ts)

`MemoryManager.update` re-embeds when `updates.content || updates.summary ||
updates.headline` is truthy — for strings that means present AND non-empty —
and otherwise forwards the delta unchanged; `store` with `skipExtraction`
inserts one row with `importance: options.importance ?? 0.5`; `import`
re-inserts each payload memory with its own `importance`.  The embedding
capability is passed in as a function. -/

/-- JS truthiness of an optional string field. -/
def truthyStr : Option String → Bool
  | some s => !(s == "")
  | none => false

/-- The partial update object accepted by `MemoryManager.update` (no vector). -/
structure ManagerDelta where
  headline : Option String := none
  summary : Option String := none
  content : Option String := none
  importance : Option ℚ := none
  tags : Option (List String) := none
deriving DecidableEq

/-- The re-embedding trigger `updates.content || updates.summary ||
updates.headline` (manager.ts line 239). -/
def reembedCond (u : ManagerDelta) : Bool :=
  truthyStr u.content || truthyStr u.summary || truthyStr u.headline

def toUpdateDelta (u : ManagerDelta) (vector : Option (List ℚ)) : UpdateDelta :=
  { headline := u.headline, summary := u.summary, content := u.content,
    importance := u.importance, tags := u.tags, vector := vector }

/-- `MemoryManager.update` (manager.ts lines 232-253). -/
def managerUpdate (t : Table) (embed : String → List ℚ) (id : String)
    (u : ManagerDelta) (now : ℕ) : DbOut (Option MemRow) :=
  if reembedCond u then
    match (dbGetById t id).result with
    | Except.error e => ⟨Except.error e, t, []⟩
    | Except.ok none => ⟨Except.ok none, t, [EngineCall.query id]⟩
    | Except.ok (some existing) =>
      let newHeadline := u.headline.getD existing.headline
      let newSummary := u.summary.getD existing.summary
      let newContent := u.content.getD existing.content
      let vector := embed (newHeadline ++ "\n" ++ newSummary ++ "\n" ++ newContent)
      dbUpdate t id (toUpdateDelta u (some vector)) now false
  else
    dbUpdate t id (toUpdateDelta u none) now false

/-- The row carried by an `ok (some …)` result (`dflt` is never reached in
the claims, which prove the result has that shape). -/
def resultRow (out : DbOut (Option MemRow)) (dflt : MemRow) : MemRow :=
  match out.result with
  | Except.ok (some r) => r
  | _ => dflt

/-- JS `content.slice(0, n)`. -/
def strTake (s : String) (n : ℕ) : String := String.mk (s.data.take n)

/-- `TinmemDB.insert` (db.ts lines 580-598): build the record with a fresh id
and server timestamps, append it. -/
def dbInsertNew (t : Table) (newId : String) (now : ℕ)
    (headline summary content category scope : String) (importance : ℚ)
    (tags : List String) (vector : List ℚ) : DbOut MemRow :=
  let record : MemRow :=
    { id := newId, headline := headline, summary := summary, content := content,
      category := category, scope := scope, importance := importance,
      createdAt := now, updatedAt := now, accessCount := 0,
      lastAccessedAt := now, tags := tags, vector := some vector }
  ⟨Except.ok record, t ++ [record], [EngineCall.add [record]]⟩

/-- The `skipExtraction` branch of `MemoryManager.store` (manager.ts lines
170-188): headline `content[:100]`, summary `content[:300]`, importance
`options.importance ?? 0.5` — passed through without clamping. -/
def managerStoreSkipExtraction (t : Table) (embed : String → List ℚ)
    (newId : String) (now : ℕ) (content : String) (category scope : String)
    (importance : Option ℚ) (tags : Option (List String)) : DbOut MemRow :=
  dbInsertNew t newId now (strTake content 100) (strTake content 300) content
    category scope (importance.getD (1/2)) (tags.getD []) (embed content)

/-- One iteration of `MemoryManager.import` (manager.ts lines 297-311):
insert the payload memory afresh with a new id, re-embedded vector, optional
scope override, and its own `importance` — passed through without clamping. -/
def managerImportOne (t : Table) (embed : String → List ℚ) (newId : String)
    (now : ℕ) (m : MemRow) (ov : Option String) : DbOut MemRow :=
  dbInsertNew t newId now m.headline m.summary m.content m.category
    (ov.getD m.scope) m.importance m.tags
    (embed (m.headline ++ "\n" ++ m.summary ++ "\n" ++ m.content))

/-! ### Extractor (src/memory/extractor.ts, src/prompts.ts)

`validateExtracted` drops malformed items and clamps `importance`;
`shouldSkip` gates per-turn extraction on the noise filter.  The
user-configured skip regexes are modelled by an opaque predicate
`customSkip` (the source compiles each pattern, silently ignoring malformed
ones).  Case-insensitivity and trimming are modelled for ASCII text, and
string length counts characters as the source counts UTF-16 units (equal on
ASCII). -/

/-- A raw item of the parsed LLM output, fields optional/untyped as in JS
(an item whose field has the wrong runtime type is modelled as the field
being absent; `tags` entries are already strings). -/
structure RawItem where
  headline : Option String := none
  summary : Option String := none
  content : Option String := none
  category : Option String := none
  importance : Option ℚ := none
  tags : Option (List String) := none
deriving DecidableEq

structure ExtractedMemory where
  headline : String
  summary : String
  content : String
  category : String
  importance : ℚ
  tags : List String
deriving DecidableEq

def isWsChar (c : Char) : Bool :=
  c == ' ' || c == '\t' || c == '\n' || c == '\r'

/-- JS `String.prototype.trim` (ASCII whitespace). -/
def strTrim (s : String) : String :=
  String.mk (((s.data.dropWhile isWsChar).reverse.dropWhile isWsChar).reverse)

/-- One item of `MemoryExtractor.validateExtracted` (extractor.ts lines
147-186): all of headline/summary/content/category must be present strings,
the category whitelisted; importance is clamped into `[0, 1]` and defaults
to `0.5`; missing tags become `[]`. -/
def validateItem (m : RawItem) : Option ExtractedMemory :=
  match m.headline, m.summary, m.content, m.category with
  | some h, some s, some c, some cat =>
    if categoryValid cat then
      some { headline := strTrim h, summary := strTrim s, content := strTrim c,
             category := cat,
             importance :=
               match m.importance with
               | some i => max 0 (min 1 i)
               | none => 1/2,
             tags := m.tags.getD [] }
    else none
  | _, _, _, _ => none

def validateExtracted (raw : List RawItem) : List ExtractedMemory :=
  raw.filterMap validateItem

def lowerStr (s : String) : String := String.mk (s.data.map Char.toLower)

/-- `NOISE_PATTERNS` (prompts.ts lines 216-223), as the word alternatives of
the six case-insensitive anchored regexes. -/
def NOISE_WORDS : List String :=
  ["hi", "hello", "hey", "good morning", "good evening", "good afternoon",
   "thanks", "thank you", "thx", "ty",
   "ok", "okay", "sure", "alright", "got it", "understood", "noted",
   "yes", "no", "yeah", "nope", "yep",
   "great", "awesome", "perfect", "excellent", "wonderful",
   "bye", "goodbye", "see you", "cya"]

/-- `isNoise` (prompts.ts lines 225-228): the trimmed text matches one of the
noise patterns (word plus optional `!`/`.`/`,`) or is shorter than 10
characters. -/
def isNoise (s : String) : Bool :=
  (NOISE_WORDS.any fun w =>
    lowerStr (strTrim s) == w || lowerStr (strTrim s) == w ++ "!" ||
    lowerStr (strTrim s) == w ++ "." || lowerStr (strTrim s) == w ++ ",") ||
  (strTrim s).length < 10

/-- `MemoryExtractor.shouldSkip` (extractor.ts lines 126-145). -/
def shouldSkip (minContentLength : ℕ) (customSkip : String → Bool)
    (user assistant : String) : Bool :=
  isNoise user || customSkip user ||
  (user.length + assistant.length < minContentLength * 2)

/-- `MemoryExtractor.extractFromTurn` (extractor.ts lines 27-61): with the
noise filter on, a skipped turn yields `[]` without any LLM call; otherwise
the LLM is called and its parsed output (`none` for transport/parse failure)
is validated.  The second component records whether the LLM was called. -/
def extractFromTurn (noiseFilter : Bool) (minContentLength : ℕ)
    (customSkip : String → Bool) (user assistant : String)
    (llmResponse : Option (List RawItem)) : List ExtractedMemory × Bool :=
  if noiseFilter && shouldSkip minContentLength customSkip user assistant then
    ([], false)
  else
    match llmResponse with
    | none => ([], true)
    | some raw => (validateExtracted raw, true)

/-- C4 witness: a one-element valid id list on a one-row table. -/
theorem C4_witness :
    ([sampleUuid] : List String) ≠ [] ∧
    ([sampleUuid].all uuidValid = true) ∧
    ((dbDeleteMany [sampleRow] [sampleUuid]).result = Except.ok 1 ∧
      (dbDeleteMany [sampleRow] [sampleUuid]).table =
        ([sampleRow] : Table).filter (fun r => !([sampleUuid].contains r.id)) ∧
      dbDeleteMany [sampleRow] [] = ⟨Except.ok 0, [sampleRow], []⟩) :=
  ⟨by decide, by decide,
    C4_deleteMany_returns_input_length [sampleRow] [sampleUuid]
      (by decide) (by decide)⟩

/-! ### Claim theorems: manager update re-embedding -/

/-- Delta of the C6 counterexample: `content` present with the empty string. -/
def c6Delta : ManagerDelta := { content := some "" }

/-- Output of the C6 counterexample run: empty-string content update on the
sample row under a constant embedding function. -/
def c6Out : DbOut (Option MemRow) :=
  managerUpdate [sampleRow] (fun _ => [1]) sampleUuid c6Delta 5

/-- C6, counterexample to the claim as stated: `update` with `content`
present but equal to the empty string does not re-embed (JS truthiness), so
the post-state row has content `""` while its vector is `[]` (the update
merges onto the vector-less read projection), not
`embed(headline' + "\n" + summary' + "\n" + content')`, which the constant
embedding maps to `[1]`. -/
theorem C6_counterexample :
    c6Delta.content = some "" ∧
    c6Out.result = Except.ok (some (resultRow c6Out sampleRow)) ∧
    (resultRow c6Out sampleRow).content = "" ∧
    (resultRow c6Out sampleRow).vector = some [] ∧
    (resultRow c6Out sampleRow).vector ≠
      some ((fun _ => ([1] : List ℚ))
        ((resultRow c6Out sampleRow).headline ++ "\n" ++
          (resultRow c6Out sampleRow).summary ++ "\n" ++
          (resultRow c6Out sampleRow).content)) := by
  refine ⟨rfl, ?_, ?_, ?_, ?_⟩ <;> decide

/-- C6 (amended): `update(id, δ)` on an existing row re-embeds iff any of
`headline`, `summary`, `content` is present in δ with a non-empty value (JS
truthiness); in that case the post-state vector equals the embedding of the
post-state `headline' + "\n" + summary' + "\n" + content'`.  Otherwise
(fields absent or present as empty strings) no re-embedding occurs, and —
because the update merges onto `getById`'s vector-less projection — the row
is persisted with the empty vector `[]`, not its previous vector. -/
theorem C6_update_reembeds_iff_truthy_field (t : Table)
    (embed : String → List ℚ) (id : String) (u : ManagerDelta) (now : ℕ)
    (existing : MemRow) (hvalid : uuidValid id = true)
    (hex : (t.filter fun r => r.id == id).head? = some existing) :
    (managerUpdate t embed id u now).result =
      Except.ok (some (resultRow (managerUpdate t embed id u now) existing)) ∧
    (reembedCond u = true →
      (resultRow (managerUpdate t embed id u now) existing).vector =
        some (embed
          ((resultRow (managerUpdate t embed id u now) existing).headline ++
          "\n" ++ (resultRow (managerUpdate t embed id u now) existing).summary ++
          "\n" ++ (resultRow (managerUpdate t embed id u now) existing).content))) ∧
    (reembedCond u = false →
      (resultRow (managerUpdate t embed id u now) existing).vector =
        some []) := by
  by_cases hcond : reembedCond u = true
  · have hout : managerUpdate t embed id u now =
        dbUpdate t id (toUpdateDelta u (some (embed
          ((u.headline.getD existing.headline) ++ "\n" ++
           (u.summary.getD existing.summary) ++ "\n" ++
           (u.content.getD existing.content))))) now false := by
      simp [managerUpdate, hcond, dbGetById, hvalid, hex, projMemory]
    rw [hout]
    refine ⟨?_, fun _ => ?_, fun hfalse => absurd hcond (by simp [hfalse])⟩
    · simp [dbUpdate, hvalid, hex, resultRow, applyDelta, toUpdateDelta]
    · simp [dbUpdate, hvalid, hex, resultRow, applyDelta, toUpdateDelta, projMemory]
  · have hcond' : reembedCond u = false := by
      cases h : reembedCond u
      · rfl
      · exact absurd h hcond
    have hout : managerUpdate t embed id u now =
        dbUpdate t id (toUpdateDelta u none) now false := by
      simp [managerUpdate, hcond']
    rw [hout]
    refine ⟨?_, fun htrue => absurd htrue (by simp [hcond']), fun _ => ?_⟩
    · simp [dbUpdate, hvalid, hex, resultRow, applyDelta, toUpdateDelta]
    · simp [dbUpdate, hvalid, hex, resultRow, applyDelta, toUpdateDelta, projMemory]

/-- C6 witness: a non-empty `headline` update re-embeds; evaluated on the
sample row. -/
theorem C6_witness :
    uuidValid sampleUuid = true ∧
    (([sampleRow] : Table).filter fun r => r.id == sampleUuid).head? =
      some sampleRow ∧
    ((managerUpdate [sampleRow] (fun _ => [7]) sampleUuid
        { headline := some "h2" } 9).result =
      Except.ok (some (resultRow (managerUpdate [sampleRow] (fun _ => [7])
        sampleUuid { headline := some "h2" } 9) sampleRow)) ∧
    (reembedCond { headline := some "h2" } = true →
      (resultRow (managerUpdate [sampleRow] (fun _ => [7]) sampleUuid
          { headline := some "h2" } 9) sampleRow).vector =
        some ((fun _ => ([7] : List ℚ))
          ((resultRow (managerUpdate [sampleRow] (fun _ => [7]) sampleUuid
            { headline := some "h2" } 9) sampleRow).headline ++ "\n" ++
          (resultRow (managerUpdate [sampleRow] (fun _ => [7]) sampleUuid
            { headline := some "h2" } 9) sampleRow).summary ++ "\n" ++
          (resultRow (managerUpdate [sampleRow] (fun _ => [7]) sampleUuid
            { headline := some "h2" } 9) sampleRow).content))) ∧
    (reembedCond { headline := some "h2" } = false →
      (resultRow (managerUpdate [sampleRow] (fun _ => [7]) sampleUuid
          { headline := some "h2" } 9) sampleRow).vector = some [])) :=
  ⟨by decide, by decide,
    C6_update_reembeds_iff_truthy_field [sampleRow] (fun _ => [7]) sampleUuid
      { headline := some "h2" } 9 sampleRow (by decide) (by decide)⟩

/-! ### Claim theorems: importance clamping, extraction gating -/

/-- The row persisted by the C7 counterexample run. -/
def c7Row : MemRow :=
  { id := sampleUuid, headline := "note", summary := "note",
    content := "note", category := "profile", scope := "global",
    importance := 2, createdAt := 0, updatedAt := 0, accessCount := 0,
    lastAccessedAt := 0, tags := [], vector := some [1] }

/-- C7, counterexample to the claim as stated: `store` with `skipExtraction`
persists the caller-supplied `importance` unclamped — here `2`, violating
`0 ≤ importance ≤ 1` in the stored row. -/
theorem C7_counterexample :
    (managerStoreSkipExtraction [] (fun _ => [1]) sampleUuid 0 "note" "profile"
        "global" (some 2) none).result = Except.ok c7Row ∧
    c7Row.importance = 2 ∧ ¬ ((2 : ℚ) ≤ 1) := by
  refine ⟨by decide, rfl, by norm_num⟩

/-- C7 (amended): only the LLM-extraction ingestion path clamps importance:
every record surviving `validateExtracted` has `importance ∈ [0, 1]`
(defaulting to `0.5`), while `store` with `skipExtraction` and `import`
persist the caller-supplied importance value unchanged, without clamping. -/
theorem C7_importance_clamped_only_by_extraction (raw : List RawItem)
    (t : Table) (embed : String → List ℚ) (newId : String) (now : ℕ)
    (content cat scope : String) (imp : ℚ) (tags : Option (List String))
    (m : MemRow) (ov : Option String) :
    (∀ e ∈ validateExtracted raw, 0 ≤ e.importance ∧ e.importance ≤ 1) ∧
    (∀ r, (managerStoreSkipExtraction t embed newId now content cat scope
        (some imp) tags).result = Except.ok r → r.importance = imp) ∧
    (∀ r, (managerImportOne t embed newId now m ov).result = Except.ok r →
      r.importance = m.importance) := by
  refine ⟨?_, ?_, ?_⟩
  · intro e he
    obtain ⟨a, ha, hv⟩ := List.mem_filterMap.1 he
    unfold validateItem at hv
    split at hv
    · split at hv
      · cases hv
        cases himp : a.importance with
        | none => simp [himp]; norm_num
        | some i =>
          simp only [himp]
          constructor
          · exact le_max_left 0 _
          · exact max_le (by norm_num) (min_le_left 1 i)
      · exact absurd hv (by simp)
    · exact absurd hv (by simp)
  · intro r hr
    simp only [managerStoreSkipExtraction, dbInsertNew, Except.ok.injEq] at hr
    rw [← hr]
    simp
  · intro r hr
    simp only [managerImportOne, dbInsertNew, Except.ok.injEq] at hr
    rw [← hr]

/-- An out-of-range raw LLM item used to exercise the extraction clamp. -/
def c7Raw : RawItem :=
  { headline := some "a", summary := some "b", content := some "c",
    category := some "profile", importance := some 3 }

/-- C7 witness: a raw item with importance `3` is clamped into `[0, 1]` by
the extraction path, while `store(skipExtraction)` and `import` pass `2` and
the sample row's importance through unchanged. -/
theorem C7_witness :
    (∀ e ∈ validateExtracted [c7Raw], 0 ≤ e.importance ∧ e.importance ≤ 1) ∧
    (∀ r, (managerStoreSkipExtraction [] (fun _ => [1]) sampleUuid 0 "note"
        "profile" "global" (some 2) none).result = Except.ok r →
      r.importance = 2) ∧
    (∀ r, (managerImportOne [] (fun _ => [1]) sampleUuid 0 sampleRow
        none).result = Except.ok r → r.importance = sampleRow.importance) :=
  C7_importance_clamped_only_by_extraction [c7Raw]
    [] (fun _ => [1]) sampleUuid 0 "note" "profile" "global" 2 none
    sampleRow none

/-- The well-formed raw LLM item of the C8 counterexample. -/
def c8Raw : RawItem :=
  { headline := some "User runs Linux", summary := some "User runs Linux daily",
    content := some "User mentioned running Linux daily",
    category := some "profile", importance := some 1, tags := some [] }

/-- C8, counterexample to the claim as stated: a non-noise user message of
length 18 < `minContentLength` = 20 does not yield an empty extraction when
the assistant response is long enough: the source skips on the combined
length `len(user) + len(assistant) < 2·minContentLength`, not on the user
length alone, so the LLM is called and its valid item is returned. -/
theorem C8_counterexample :
    ("what about the bug".length < 20) ∧
    isNoise "what about the bug" = false ∧
    (extractFromTurn true 20 (fun _ => false) "what about the bug"
        "They described a concurrency bug in detail" (some [c8Raw])).2 = true ∧
    (extractFromTurn true 20 (fun _ => false) "what about the bug"
        "They described a concurrency bug in detail" (some [c8Raw])).1 ≠ [] := by
  refine ⟨by decide, by decide, by decide, by decide⟩

/-- C8 (amended): with the noise filter enabled, a user message matching the
noise pattern set yields an empty per-turn extraction with no LLM call; and
the short-message skip is on the combined length: whenever
`len(user) + len(assistant) < 2·minContentLength` the extraction is empty
with no LLM call, regardless of noise-pattern membership. -/
theorem C8_noise_or_short_combined_skips (minCL : ℕ)
    (customSkip : String → Bool) (user assistant : String)
    (llm : Option (List RawItem)) :
    (isNoise user = true →
      extractFromTurn true minCL customSkip user assistant llm = ([], false)) ∧
    (user.length + assistant.length < minCL * 2 →
      extractFromTurn true minCL customSkip user assistant llm = ([], false)) := by
  constructor <;> intro h <;> simp [extractFromTurn, shouldSkip, h]

/-- C8 witness: the noise word `ok` skips, and a short combined turn skips. -/
theorem C8_witness :
    isNoise "ok" = true ∧
    ("hm".length + "done".length < 20 * 2) ∧
    extractFromTurn true 20 (fun _ => false) "ok" "reply"
      (some [{ headline := some "a" }]) = ([], false) ∧
    extractFromTurn true 20 (fun _ => false) "hm" "done"
      (some [{ headline := some "a" }]) = ([], false) :=
  ⟨by decide, by decide,
    (C8_noise_or_short_combined_skips 20 (fun _ => false) "ok" "reply"
      (some [{ headline := some "a" }])).1 (by decide),
    (C8_noise_or_short_combined_skips 20 (fun _ => false) "hm" "done"
      (some [{ headline := some "a" }])).2 (by decide)⟩

end Tinmem
